import Mathlib

/-!
Shallow embedding of the identity/fixture generator of the
soroban-token-fuzzer repository, file `src/addrgen.rs`, together with proofs
of the specified properties.

Modelling conventions:
* Machine integers (`u64`, `i64`, `u32`) are `Nat`/`Int` with explicit bounds
  where overflow matters; `u64::checked_add` returns an `Option`.
* A Rust `panic!`/`expect` is modelled by the whole computation returning
  `none`.
* `ed25519_dalek::SigningKey::from_bytes` stores exactly the 32 seed bytes,
  so key material is modelled by those 32 bytes; the external ed25519
  public-key derivation `SigningKey::verifying_key` is an explicit function
  parameter `vk : List Nat → List Nat` supplied by the environment
  (instantiated with a concrete function in witnesses).
* `Address::try_from_val`/`ScAddress::try_from` convert between the host
  `Address` and `ScAddress` without loss; addresses are modelled directly as
  `ScAddress` values.
* The batch size `NUMBER_OF_ADDRESSES` (defined in `crate::input`, outside
  the embedded file) only fixes the length of the `address_types` array and
  the loop range `0..NUMBER_OF_ADDRESSES`; the schema is modelled with a
  list of kinds, and `N` is its length.
-/

namespace SorobanTokenFuzzer

/-- Largest unsigned 64-bit value, `u64::MAX`. -/
def MAX_U64 : Nat := 2 ^ 64 - 1

/-- Largest signed 64-bit value, `i64::MAX`. -/
def I64_MAX : Int := 2 ^ 63 - 1

/-- Model of `u64::checked_add`: the sum when it fits in 64 bits, `none` on
overflow. -/
def checked_add (a b : Nat) : Option Nat :=
  if a + b ≤ MAX_U64 then some (a + b) else none

/-- Model of `u64::to_be_bytes`: the eight bytes of a 64-bit value, most
significant byte first. -/
def to_be_bytes (n : Nat) : List Nat :=
  [n / 2 ^ 56 % 256, n / 2 ^ 48 % 256, n / 2 ^ 40 % 256, n / 2 ^ 32 % 256,
   n / 2 ^ 24 % 256, n / 2 ^ 16 % 256, n / 2 ^ 8 % 256, n % 256]

/-- The 32-byte `signer_bytes` array built inside
`generate_signers_with_bytes`: 24 zero bytes followed by the eight
big-endian bytes of the sub-seed. -/
def signer_bytes (s : Nat) : List Nat :=
  List.replicate 24 0 ++ to_be_bytes s

/-- The per-slot identity kind (`enum AddressType` in `addrgen.rs`). -/
inductive AddressType
  | account
  | contract
deriving DecidableEq, Repr

/-- The schema consumed by the generator (`struct AddressGenerator`):
a `u64` seed and the ordered list of per-slot kinds. -/
structure AddressGenerator where
  address_seed : Nat
  address_types : List AddressType
deriving DecidableEq, Repr

/-- Model of `soroban_sdk::xdr::ScAddress`, the externally visible identity
handle: an account address carrying an ed25519 public key, or a contract
address carrying a 32-byte hash. -/
inductive ScAddress
  | account (public_key : List Nat)
  | contract (hash : List Nat)
deriving DecidableEq, Repr

/-- Model of `struct TestSigner`: the identity handle together with the
optional signing-key material (the 32 key-seed bytes). -/
structure TestSigner where
  address : ScAddress
  key : Option (List Nat)
deriving DecidableEq, Repr

/-- The loop body of `generate_signers_with_bytes`, split on the slot kind:
an `Account` slot builds a signing key from the 32 bytes, derives its public
key via `vk` and wraps it in an account address, keeping the key; a
`Contract` slot uses the 32 bytes directly as a contract address, with no
key. -/
def signer_for (vk : List Nat → List Nat) (ty : AddressType) (bytes : List Nat) :
    TestSigner :=
  match ty with
  | .account => ⟨ScAddress.account (vk bytes), some bytes⟩
  | .contract => ⟨ScAddress.contract bytes, none⟩

/-- The `for i in 0..NUMBER_OF_ADDRESSES` loop of
`generate_signers_with_bytes`, recursing over the remaining kinds with `i`
the current index: each iteration computes
`address_seed.checked_add(i).expect("Overflow")` (a `none` result models the
fatal panic) and pushes the signer built from the 32 signer bytes. -/
def generate_loop (vk : List Nat → List Nat) (seed : Nat) (i : Nat)
    (kinds : List AddressType) : Option (List (TestSigner × List Nat)) :=
  match kinds with
  | [] => some []
  | ty :: rest =>
    match checked_add seed i with
    | none => none
    | some s =>
      match generate_loop vk seed (i + 1) rest with
      | none => none
      | some tail => some ((signer_for vk ty (signer_bytes s), signer_bytes s) :: tail)

/-- Model of `AddressGenerator::generate_signers_with_bytes`. -/
def generate_signers_with_bytes (vk : List Nat → List Nat)
    (g : AddressGenerator) : Option (List (TestSigner × List Nat)) :=
  generate_loop vk g.address_seed 0 g.address_types

/-- Model of `AddressGenerator::generate_signers`: the same list with the
byte component of each pair dropped. -/
def generate_signers (vk : List Nat → List Nat) (g : AddressGenerator) :
    Option (List TestSigner) :=
  (generate_signers_with_bytes vk g).map (fun l => l.map Prod.fst)

/-- Model of `soroban_sdk::xdr::AlphaNum4`: a 4-byte asset code plus the
issuer account id (its 32 public-key bytes). -/
structure AlphaNum4 where
  asset_code : List Nat
  issuer : List Nat
deriving DecidableEq, Repr

/-- Model of `soroban_sdk::xdr::TrustLineAsset` (only the
`CreditAlphanum4` arm is used by the embedded code). -/
inductive TrustLineAsset
  | creditAlphanum4 (a : AlphaNum4)
deriving DecidableEq, Repr

/-- Model of `soroban_sdk::xdr::LedgerKey` (only the `Account` and
`Trustline` arms are used by the embedded code). -/
inductive LedgerKey
  | account (account_id : List Nat)
  | trustline (account_id : List Nat) (asset : TrustLineAsset)
deriving DecidableEq, Repr

/-- Model of `soroban_sdk::xdr::Signer`: an ed25519 signer key (32
public-key bytes) with its weight. -/
structure Signer where
  key : List Nat
  weight : Nat
deriving DecidableEq, Repr

/-- Model of `soroban_sdk::xdr::AccountEntryExt` (only `V0` is used). -/
inductive AccountEntryExt
  | v0
deriving DecidableEq, Repr

/-- Model of `soroban_sdk::xdr::AccountEntry`, fields in source order; the
account id is its 32 ed25519 public-key bytes and `home_domain` is a byte
string. -/
structure AccountEntry where
  account_id : List Nat
  balance : Int
  seq_num : Int
  num_sub_entries : Nat
  inflation_dest : Option (List Nat)
  flags : Nat
  home_domain : List Nat
  thresholds : List Nat
  signers : List Signer
  ext : AccountEntryExt
deriving DecidableEq, Repr

/-- Model of `soroban_sdk::xdr::TrustLineEntryExt` (only `V0` is used). -/
inductive TrustLineEntryExt
  | v0
deriving DecidableEq, Repr

/-- Model of `soroban_sdk::xdr::TrustLineEntry`, fields in source order. -/
structure TrustLineEntry where
  account_id : List Nat
  asset : TrustLineAsset
  balance : Int
  limit : Int
  flags : Nat
  ext : TrustLineEntryExt
deriving DecidableEq, Repr

/-- Model of `soroban_sdk::xdr::LedgerEntryData` (used arms only). -/
inductive LedgerEntryData
  | account (e : AccountEntry)
  | trustline (e : TrustLineEntry)
deriving DecidableEq, Repr

/-- Model of `soroban_sdk::xdr::LedgerEntryExt` (only `V0` is used). -/
inductive LedgerEntryExt
  | v0
deriving DecidableEq, Repr

/-- Model of `soroban_sdk::xdr::LedgerEntry`, fields in source order. -/
structure LedgerEntry where
  last_modified_ledger_seq : Nat
  data : LedgerEntryData
  ext : LedgerEntryExt
deriving DecidableEq, Repr

/-- Value of `TrustLineFlags::AuthorizedFlag` in the Stellar XDR. -/
def AUTHORIZED_FLAG : Nat := 1

/-- Value of `TrustLineFlags::TrustlineClawbackEnabledFlag` in the Stellar
XDR. -/
def TRUSTLINE_CLAWBACK_ENABLED_FLAG : Nat := 4

/-- The fixed `issuer_bytes` constant of `create_default_trustline`:
31 zero bytes followed by the byte 1. -/
def issuer_bytes : List Nat := List.replicate 31 0 ++ [1]

/-- Model of `create_default_account`: the `put` it performs, as the
(key, entry) pair committed to the store.  `signers` carries pairs of
signing-key bytes and weight; each signer entry holds the corresponding
ed25519 public key (`vk` of the key bytes). -/
def create_default_account (vk : List Nat → List Nat) (account_id : List Nat)
    (signers : List (List Nat × Nat)) : LedgerKey × LedgerEntry :=
  (LedgerKey.account account_id,
   ⟨0,
    LedgerEntryData.account
      ⟨account_id, 10000000, 0, 0, none, 0, [], [1, 0, 0, 0],
       signers.map (fun p => ⟨vk p.1, p.2⟩), AccountEntryExt.v0⟩,
    LedgerEntryExt.v0⟩)

/-- Model of `create_default_trustline`: the `put` it performs, as the
(key, entry) pair committed to the store. -/
def create_default_trustline (account_id : List Nat) : LedgerKey × LedgerEntry :=
  let asset := TrustLineAsset.creditAlphanum4 ⟨[97, 97, 97, 0], issuer_bytes⟩
  (LedgerKey.trustline account_id asset,
   ⟨0,
    LedgerEntryData.trustline
      ⟨account_id, asset, 0, I64_MAX,
       AUTHORIZED_FLAG ||| TRUSTLINE_CLAWBACK_ENABLED_FLAG,
       TrustLineEntryExt.v0⟩,
    LedgerEntryExt.v0⟩)

/-- Model of `AddressGenerator::setup_account_storage`: the ordered list of
`put` operations committed to the ledger store, or `none` when derivation
panics.  For each derived account-address signer it commits the default
account record and then the default trustline record; contract addresses
commit nothing. -/
def setup_account_storage (vk : List Nat → List Nat) (g : AddressGenerator) :
    Option (List (LedgerKey × LedgerEntry)) :=
  (generate_signers_with_bytes vk g).map (fun l =>
    l.flatMap (fun p =>
      match p.1.address with
      | ScAddress.account account_id =>
        [create_default_account vk account_id [(p.2, 100)],
         create_default_trustline account_id]
      | ScAddress.contract _ => []))

/-! Helper definitions and lemmas about the derivation loop. -/

/-- The list `generate_loop` produces when no sub-seed addition overflows,
written as a total recursion (the loop body at index `i`, then the rest). -/
def derived_list (vk : List Nat → List Nat) (seed : Nat) :
    Nat → List AddressType → List (TestSigner × List Nat)
  | _, [] => []
  | i, ty :: rest =>
    (signer_for vk ty (signer_bytes (seed + i)), signer_bytes (seed + i)) ::
      derived_list vk seed (i + 1) rest

/-- The (key, entry) pair `setup_account_storage` commits for the account
record of the identity with sub-seed `s`: the account id is the ed25519
public key of the signing key whose 32 seed bytes are `signer_bytes s`. -/
def account_put (vk : List Nat → List Nat) (s : Nat) : LedgerKey × LedgerEntry :=
  create_default_account vk (vk (signer_bytes s)) [(signer_bytes s, 100)]

/-- The (key, entry) pair `setup_account_storage` commits for the trustline
record of the identity with sub-seed `s`. -/
def trustline_put (vk : List Nat → List Nat) (s : Nat) : LedgerKey × LedgerEntry :=
  create_default_trustline (vk (signer_bytes s))

/-- The list of `put` operations `setup_account_storage` performs when no
sub-seed overflows, written as a total recursion over the kinds: an
`Account` slot commits its account record then its trustline record, a
`Contract` slot commits nothing. -/
def puts_list (vk : List Nat → List Nat) (seed : Nat) :
    Nat → List AddressType → List (LedgerKey × LedgerEntry)
  | _, [] => []
  | i, AddressType.account :: rest =>
    account_put vk (seed + i) :: trustline_put vk (seed + i) ::
      puts_list vk seed (i + 1) rest
  | i, AddressType.contract :: rest => puts_list vk seed (i + 1) rest

/-- The account id a ledger key refers to. -/
def account_id_of : LedgerKey → List Nat
  | LedgerKey.account a => a
  | LedgerKey.trustline a _ => a

/-- Whether a slot kind is the key-backed (`Account`) kind. -/
def is_account_kind : AddressType → Bool
  | AddressType.account => true
  | AddressType.contract => false

/-- A concrete instantiation of the environment's ed25519 public-key
derivation used by witnesses: the identity function on byte lists. -/
def id_vk : List Nat → List Nat := fun b => b

theorem derived_list_length (vk : List Nat → List Nat) (seed : Nat) :
    ∀ (kinds : List AddressType) (i : Nat),
      (derived_list vk seed i kinds).length = kinds.length := by
  intro kinds
  induction kinds with
  | nil => intro i; rfl
  | cons ty rest ih => intro i; simp [derived_list, ih]

theorem generate_loop_eq_some (vk : List Nat → List Nat) (seed : Nat) :
    ∀ (kinds : List AddressType) (i : Nat),
      seed + i + kinds.length ≤ 2 ^ 64 →
      generate_loop vk seed i kinds = some (derived_list vk seed i kinds) := by
  intro kinds
  induction kinds with
  | nil => intro i _; rfl
  | cons ty rest ih =>
    intro i h
    have h1 : seed + i ≤ MAX_U64 := by
      simp only [MAX_U64]; simp only [List.length_cons] at h; omega
    have h2 : seed + (i + 1) + rest.length ≤ 2 ^ 64 := by
      simp only [List.length_cons] at h; omega
    simp [generate_loop, checked_add, if_pos h1, ih (i + 1) h2, derived_list]

theorem generate_loop_eq_none (vk : List Nat → List Nat) (seed : Nat) :
    ∀ (kinds : List AddressType) (i j : Nat), j < kinds.length →
      MAX_U64 < seed + i + j →
      generate_loop vk seed i kinds = none := by
  intro kinds
  induction kinds with
  | nil => intro i j hj _; simp at hj
  | cons ty rest ih =>
    intro i j hj hover
    by_cases h1 : seed + i ≤ MAX_U64
    · have hj1 : 1 ≤ j := by
        by_contra hc
        have : j = 0 := by omega
        omega
      have := ih (i + 1) (j - 1) (by simp at hj; omega) (by omega)
      simp [generate_loop, checked_add, if_pos h1, this]
    · simp [generate_loop, checked_add, if_neg h1]

theorem derived_list_get (vk : List Nat → List Nat) (seed : Nat) :
    ∀ (kinds : List AddressType) (i j : Nat) (hj : j < kinds.length),
      (derived_list vk seed i kinds).get
          ⟨j, by rw [derived_list_length]; exact hj⟩ =
        (signer_for vk (kinds.get ⟨j, hj⟩) (signer_bytes (seed + i + j)),
         signer_bytes (seed + i + j)) := by
  intro kinds
  induction kinds with
  | nil => intro i j hj; simp at hj
  | cons ty rest ih =>
    intro i j hj
    match j with
    | 0 => simp [derived_list]
    | j' + 1 =>
      have hj' : j' < rest.length := by simp at hj; omega
      have := ih (i + 1) j' hj'
      simp only [derived_list, List.get_cons_succ, List.length_cons] at *
      rw [this]
      have harith : seed + (i + 1) + j' = seed + i + (j' + 1) := by omega
      rw [harith]

theorem to_be_bytes_inj {a b : Nat} (ha : a ≤ MAX_U64) (hb : b ≤ MAX_U64)
    (h : to_be_bytes a = to_be_bytes b) : a = b := by
  simp only [to_be_bytes, List.cons.injEq, and_true] at h
  obtain ⟨h1, h2, h3, h4, h5, h6, h7, h8⟩ := h
  simp only [MAX_U64] at ha hb
  omega

theorem signer_bytes_inj {a b : Nat} (ha : a ≤ MAX_U64) (hb : b ≤ MAX_U64)
    (h : signer_bytes a = signer_bytes b) : a = b := by
  apply to_be_bytes_inj ha hb
  exact List.append_cancel_left h

theorem valid_bound {g : AddressGenerator}
    (hN : g.address_types.length ≤ MAX_U64)
    (h : g.address_seed ≤ MAX_U64 - g.address_types.length) :
    g.address_seed + 0 + g.address_types.length ≤ 2 ^ 64 := by
  simp only [MAX_U64] at hN h ⊢
  omega

theorem gswb_eq_derived (vk : List Nat → List Nat) (g : AddressGenerator)
    (hb : g.address_seed + 0 + g.address_types.length ≤ 2 ^ 64) :
    generate_signers_with_bytes vk g =
      some (derived_list vk g.address_seed 0 g.address_types) :=
  generate_loop_eq_some vk g.address_seed g.address_types 0 hb

theorem derived_list_getElem_opt (vk : List Nat → List Nat) (seed i : Nat)
    (kinds : List AddressType) (j : Nat) (hj : j < kinds.length) :
    (derived_list vk seed i kinds)[j]? =
      some (signer_for vk (kinds.get ⟨j, hj⟩) (signer_bytes (seed + i + j)),
            signer_bytes (seed + i + j)) := by
  have hl : j < (derived_list vk seed i kinds).length := by
    rw [derived_list_length]; exact hj
  rw [List.getElem?_eq_getElem hl]
  have := derived_list_get vk seed kinds i j hj
  simp only [List.get_eq_getElem] at this
  rw [this]
  simp

theorem setup_eq_puts (vk : List Nat → List Nat) (g : AddressGenerator)
    (hb : g.address_seed + 0 + g.address_types.length ≤ 2 ^ 64) :
    setup_account_storage vk g =
      some (puts_list vk g.address_seed 0 g.address_types) := by
  have haux : ∀ (kinds : List AddressType) (i : Nat),
      (derived_list vk g.address_seed i kinds).flatMap (fun p =>
        match p.1.address with
        | ScAddress.account account_id =>
          [create_default_account vk account_id [(p.2, 100)],
           create_default_trustline account_id]
        | ScAddress.contract _ => []) =
      puts_list vk g.address_seed i kinds := by
    intro kinds
    induction kinds with
    | nil => intro i; rfl
    | cons ty rest ih =>
      intro i
      cases ty with
      | account =>
        simp [derived_list, signer_for, puts_list, account_put,
          trustline_put, ih]
      | contract => simp [derived_list, signer_for, puts_list, ih]
  simp only [setup_account_storage, gswb_eq_derived vk g hb]
  exact congrArg some (haux g.address_types 0)

theorem puts_list_mem (vk : List Nat → List Nat) (seed : Nat) :
    ∀ (kinds : List AddressType) (i : Nat) (p : LedgerKey × LedgerEntry),
      p ∈ puts_list vk seed i kinds →
      ∃ j, ∃ hj : j < kinds.length,
        kinds.get ⟨j, hj⟩ = AddressType.account ∧
        (p = account_put vk (seed + i + j) ∨
          p = trustline_put vk (seed + i + j)) := by
  intro kinds
  induction kinds with
  | nil => intro i p hp; simp [puts_list] at hp
  | cons ty rest ih =>
    intro i p hp
    cases ty with
    | account =>
      simp only [puts_list, List.mem_cons] at hp
      rcases hp with rfl | rfl | hp3
      · exact ⟨0, by simp, rfl, Or.inl (by simp)⟩
      · exact ⟨0, by simp, rfl, Or.inr (by simp)⟩
      · obtain ⟨j, hj, hk, hor⟩ := ih (i + 1) p hp3
        refine ⟨j + 1, by simp only [List.length_cons]; omega, by simpa using hk, ?_⟩
        rw [show seed + i + (j + 1) = seed + (i + 1) + j by omega]
        exact hor
    | contract =>
      simp only [puts_list] at hp
      obtain ⟨j, hj, hk, hor⟩ := ih (i + 1) p hp
      refine ⟨j + 1, by simp only [List.length_cons]; omega, by simpa using hk, ?_⟩
      rw [show seed + i + (j + 1) = seed + (i + 1) + j by omega]
      exact hor

theorem puts_list_account_adjacent (vk : List Nat → List Nat) (seed : Nat) :
    ∀ (kinds : List AddressType) (i j : Nat) (hj : j < kinds.length),
      kinds.get ⟨j, hj⟩ = AddressType.account →
      ∃ k, (puts_list vk seed i kinds)[k]? =
          some (account_put vk (seed + i + j)) ∧
        (puts_list vk seed i kinds)[k + 1]? =
          some (trustline_put vk (seed + i + j)) := by
  intro kinds
  induction kinds with
  | nil => intro i j hj; simp at hj
  | cons ty rest ih =>
    intro i j hj hk
    cases j with
    | zero =>
      have hty : ty = AddressType.account := hk
      subst hty
      exact ⟨0, by simp [puts_list], by simp [puts_list]⟩
    | succ j' =>
      have hj' : j' < rest.length := by simpa using hj
      have hk' : rest.get ⟨j', hj'⟩ = AddressType.account := by simpa using hk
      obtain ⟨k, h1, h2⟩ := ih (i + 1) j' hj' hk'
      rw [show seed + (i + 1) + j' = seed + i + (j' + 1) by omega] at h1 h2
      cases ty with
      | account =>
        refine ⟨k + 2, ?_, ?_⟩
        · simp only [puts_list, List.getElem?_cons_succ]
          exact h1
        · simp only [puts_list, List.getElem?_cons_succ]
          exact h2
      | contract =>
        refine ⟨k, ?_, ?_⟩
        · simp only [puts_list]
          exact h1
        · simp only [puts_list]
          exact h2

theorem puts_list_keys_nodup (vk : List Nat → List Nat)
    (hvk : Function.Injective vk) (seed : Nat) :
    ∀ (kinds : List AddressType) (i : Nat),
      seed + i + kinds.length ≤ 2 ^ 64 →
      ((puts_list vk seed i kinds).map Prod.fst).Nodup := by
  intro kinds
  induction kinds with
  | nil => intro i _; simp [puts_list]
  | cons ty rest ih =>
    intro i hb
    simp only [List.length_cons] at hb
    have hb' : seed + (i + 1) + rest.length ≤ 2 ^ 64 := by omega
    cases ty with
    | contract =>
      simp only [puts_list]
      exact ih (i + 1) hb'
    | account =>
      have hfresh : ∀ p ∈ puts_list vk seed (i + 1) rest,
          account_id_of p.1 ≠ vk (signer_bytes (seed + i)) := by
        intro p hp heq
        obtain ⟨j, hj, hk, hor⟩ := puts_list_mem vk seed rest (i + 1) p hp
        have hid : account_id_of p.1 = vk (signer_bytes (seed + (i + 1) + j)) := by
          rcases hor with rfl | rfl <;>
            simp [account_put, trustline_put, create_default_account,
              create_default_trustline, account_id_of]
        rw [hid] at heq
        have h1 : signer_bytes (seed + (i + 1) + j) =
            signer_bytes (seed + i) := hvk heq
        have hle1 : seed + (i + 1) + j ≤ MAX_U64 := by
          simp only [MAX_U64]; omega
        have hle2 : seed + i ≤ MAX_U64 := by
          simp only [MAX_U64]; omega
        have := signer_bytes_inj hle1 hle2 h1
        omega
      simp only [puts_list, List.map_cons, List.nodup_cons, List.mem_cons]
      refine ⟨?_, ?_, ih (i + 1) hb'⟩
      · push_neg
        constructor
        · simp [account_put, trustline_put, create_default_account,
            create_default_trustline]
        · intro hmem
          obtain ⟨p, hp, hpk⟩ := List.mem_map.mp hmem
          apply hfresh p hp
          rw [show account_id_of p.1 =
              account_id_of (account_put vk (seed + i)).1 by rw [hpk]]
          simp [account_put, create_default_account, account_id_of]
      · intro hmem
        obtain ⟨p, hp, hpk⟩ := List.mem_map.mp hmem
        apply hfresh p hp
        rw [show account_id_of p.1 =
            account_id_of (trustline_put vk (seed + i)).1 by rw [hpk]]
        simp [trustline_put, create_default_trustline, account_id_of]

theorem puts_list_length (vk : List Nat → List Nat) (seed : Nat) :
    ∀ (kinds : List AddressType) (i : Nat),
      (puts_list vk seed i kinds).length =
        2 * kinds.countP is_account_kind := by
  intro kinds
  induction kinds with
  | nil => intro i; rfl
  | cons ty rest ih =>
    intro i
    cases ty with
    | account =>
      simp only [puts_list, List.length_cons, List.countP_cons, ih,
        is_account_kind, if_true]
      omega
    | contract =>
      simp only [puts_list, List.countP_cons, ih, is_account_kind,
        Bool.false_eq_true, if_false]
      omega

/-! Claim theorems about the derivation engine. -/

/-- C6: under the schema precondition `seed ≤ MAX_U64 − N`, the sub-seed
addition `seed + i` never overflows for any index `i` in `0..N`, so the
fatal overflow assertion in derivation is unreachable and derivation always
returns a full list of length `N`. -/
theorem no_overflow_under_precondition (vk : List Nat → List Nat)
    (g : AddressGenerator)
    (hN : g.address_types.length ≤ MAX_U64)
    (h : g.address_seed ≤ MAX_U64 - g.address_types.length) :
    (∀ i, i < g.address_types.length →
      checked_add g.address_seed i = some (g.address_seed + i)) ∧
    ∃ l, generate_signers_with_bytes vk g = some l ∧
      l.length = g.address_types.length := by
  have hb := valid_bound hN h
  refine ⟨?_, derived_list vk g.address_seed 0 g.address_types,
    gswb_eq_derived vk g hb,
    derived_list_length vk g.address_seed g.address_types 0⟩
  intro i hi
  have hle : g.address_seed + i ≤ MAX_U64 := by
    simp only [MAX_U64] at *; omega
  simp [checked_add, hle]

theorem no_overflow_under_precondition_witness :
    (((⟨5, [AddressType.account, AddressType.contract]⟩ :
        AddressGenerator).address_types.length ≤ MAX_U64) ∧
      ((⟨5, [AddressType.account, AddressType.contract]⟩ :
        AddressGenerator).address_seed ≤ MAX_U64 - 2)) ∧
    ((∀ i, i < 2 → checked_add 5 i = some (5 + i)) ∧
      ∃ l, generate_signers_with_bytes id_vk
          ⟨5, [AddressType.account, AddressType.contract]⟩ = some l ∧
        l.length = 2) :=
  ⟨⟨by decide, by decide⟩,
   no_overflow_under_precondition id_vk
     ⟨5, [AddressType.account, AddressType.contract]⟩ (by decide) (by decide)⟩

/-- C3: derivation is deterministic: for any valid schema, two independent
calls on the identical schema produce the same byte-identical ordered list
of (handle, key material, fingerprint), including identical signing-key
bytes. -/
theorem derive_deterministic (vk : List Nat → List Nat)
    (g₁ g₂ : AddressGenerator)
    (hN : g₁.address_types.length ≤ MAX_U64)
    (h : g₁.address_seed ≤ MAX_U64 - g₁.address_types.length)
    (heq : g₁ = g₂) :
    ∃ l, generate_signers_with_bytes vk g₁ = some l ∧
      generate_signers_with_bytes vk g₂ = some l := by
  subst heq
  exact ⟨_, gswb_eq_derived vk g₁ (valid_bound hN h),
    gswb_eq_derived vk g₁ (valid_bound hN h)⟩

theorem derive_deterministic_witness :
    (((⟨7, [AddressType.contract]⟩ :
        AddressGenerator).address_types.length ≤ MAX_U64) ∧
      ((⟨7, [AddressType.contract]⟩ :
        AddressGenerator).address_seed ≤ MAX_U64 - 1) ∧
      (⟨7, [AddressType.contract]⟩ : AddressGenerator) =
        ⟨7, [AddressType.contract]⟩) ∧
    ∃ l, generate_signers_with_bytes id_vk ⟨7, [AddressType.contract]⟩ =
        some l ∧
      generate_signers_with_bytes id_vk ⟨7, [AddressType.contract]⟩ =
        some l :=
  ⟨⟨by decide, by decide, rfl⟩,
   derive_deterministic id_vk ⟨7, [AddressType.contract]⟩
     ⟨7, [AddressType.contract]⟩ (by decide) (by decide) rfl⟩

/-- C1 counterexample: with `N = 2` requested slots and
`seed = MAX_U64 − N + 1` (one above the documented bound), derivation does
not fail: the largest sub-seed is exactly `MAX_U64`, so no addition
overflows and a value is returned. -/
theorem overflow_guard_cex :
    generate_signers_with_bytes id_vk
      ⟨MAX_U64 - 2 + 1, [AddressType.contract, AddressType.contract]⟩ ≠
      none := by decide

/-- C1 (amended): with `N` requested slots (`2 ≤ N ≤ MAX_U64`) and
`seed = MAX_U64 − N + 2` (two above the documented bound), the sub-seed
addition at the last index would exceed `MAX_U64`, and derivation fails
fatally (the process-terminating assertion, modelled by `none`) rather than
silently wrapping; at `seed = MAX_U64 − N + 1` the largest sub-seed is
exactly `MAX_U64` and derivation still succeeds. -/
theorem overflow_guard_two_above (vk : List Nat → List Nat)
    (g : AddressGenerator)
    (hN2 : 2 ≤ g.address_types.length)
    (hNM : g.address_types.length ≤ MAX_U64)
    (hseed : g.address_seed = MAX_U64 - g.address_types.length + 2) :
    generate_signers_with_bytes vk g = none := by
  refine generate_loop_eq_none vk g.address_seed g.address_types 0
    (g.address_types.length - 1) (by omega) ?_
  simp only [MAX_U64] at *
  omega

theorem overflow_guard_two_above_witness :
    ((2 ≤ 2) ∧ ((2 : Nat) ≤ MAX_U64) ∧
      (MAX_U64 - 2 + 2 = MAX_U64 - 2 + 2)) ∧
    generate_signers_with_bytes id_vk
      ⟨MAX_U64 - 2 + 2, [AddressType.contract, AddressType.contract]⟩ =
      none :=
  ⟨⟨by decide, by decide, rfl⟩,
   overflow_guard_two_above id_vk
     ⟨MAX_U64 - 2 + 2, [AddressType.contract, AddressType.contract]⟩
     (by decide) (by decide) rfl⟩

/-- C2 counterexample: for the schema `{seed = 1000, kinds = [KeyBacked]}`
the single element of the list returned by `generate_signers` carries the
identity's signing-key material (`key` is `some`, holding the 32 key-seed
bytes), refuting the claim that no returned element carries signing-key
material. -/
theorem generate_signers_key_cex :
    (generate_signers id_vk ⟨1000, [AddressType.account]⟩).map
        (fun l => l.map TestSigner.key) =
      some [some (signer_bytes 1000)] := by decide

/-- C2 (amended): `generate_signers` returns the derived `TestSigner`
values with only the raw 32-byte fingerprints (the second tuple components)
dropped; a returned element carries signing-key material exactly when its
slot kind is the key-backed `Account` kind, and carries none when the slot
kind is `Contract`. -/
theorem generate_signers_key_presence (vk : List Nat → List Nat)
    (g : AddressGenerator)
    (hN : g.address_types.length ≤ MAX_U64)
    (h : g.address_seed ≤ MAX_U64 - g.address_types.length) :
    ∃ l, generate_signers vk g = some l ∧
      l.length = g.address_types.length ∧
      ∀ j (hj : j < g.address_types.length),
        (g.address_types.get ⟨j, hj⟩ = AddressType.account →
          (l[j]?).map TestSigner.key =
            some (some (signer_bytes (g.address_seed + j)))) ∧
        (g.address_types.get ⟨j, hj⟩ = AddressType.contract →
          (l[j]?).map TestSigner.key = some none) := by
  have hb := valid_bound hN h
  refine ⟨(derived_list vk g.address_seed 0 g.address_types).map Prod.fst,
    ?_, ?_, ?_⟩
  · simp [generate_signers, gswb_eq_derived vk g hb]
  · simp [derived_list_length]
  · intro j hj
    have hmap : ((derived_list vk g.address_seed 0 g.address_types).map
        Prod.fst)[j]? =
        some (signer_for vk (g.address_types.get ⟨j, hj⟩)
          (signer_bytes (g.address_seed + 0 + j))) := by
      rw [List.getElem?_map,
        derived_list_getElem_opt vk g.address_seed 0 g.address_types j hj]
      rfl
    constructor <;> intro hkind <;> rw [hmap, hkind] <;> simp [signer_for]

theorem generate_signers_key_presence_witness :
    (((⟨9, [AddressType.account, AddressType.contract]⟩ :
        AddressGenerator).address_types.length ≤ MAX_U64) ∧
      ((⟨9, [AddressType.account, AddressType.contract]⟩ :
        AddressGenerator).address_seed ≤ MAX_U64 - 2)) ∧
    ∃ l, generate_signers id_vk
        ⟨9, [AddressType.account, AddressType.contract]⟩ = some l ∧
      l.length = 2 ∧
      ∀ j (hj : j < 2),
        (([AddressType.account, AddressType.contract].get ⟨j, hj⟩ =
            AddressType.account →
          (l[j]?).map TestSigner.key =
            some (some (signer_bytes (9 + j)))) ∧
        ([AddressType.account, AddressType.contract].get ⟨j, hj⟩ =
            AddressType.contract →
          (l[j]?).map TestSigner.key = some none)) :=
  ⟨⟨by decide, by decide⟩,
   generate_signers_key_presence id_vk
     ⟨9, [AddressType.account, AddressType.contract]⟩ (by decide) (by decide)⟩

/-- C4: for every valid schema and index `i`, the 32-byte fingerprint of
the i-th derived identity is 24 zero bytes followed by the 8-byte
big-endian serialization of `seed + i`; in particular the schema
`{seed = 1000, kinds = [KeyBacked, Opaque]}` derives fingerprints ending in
the big-endian bytes of 1000 and 1001. -/
theorem fingerprint_bytes (vk : List Nat → List Nat) (g : AddressGenerator)
    (hN : g.address_types.length ≤ MAX_U64)
    (h : g.address_seed ≤ MAX_U64 - g.address_types.length) :
    (∃ l, generate_signers_with_bytes vk g = some l ∧
      l.length = g.address_types.length ∧
      ∀ j, j < g.address_types.length →
        (l[j]?).map Prod.snd =
          some (List.replicate 24 0 ++ to_be_bytes (g.address_seed + j))) ∧
    (generate_signers_with_bytes vk
        ⟨1000, [AddressType.account, AddressType.contract]⟩).map
        (fun l => l.map Prod.snd) =
      some [List.replicate 24 0 ++ [0, 0, 0, 0, 0, 0, 3, 232],
        List.replicate 24 0 ++ [0, 0, 0, 0, 0, 0, 3, 233]] := by
  constructor
  · have hb := valid_bound hN h
    refine ⟨derived_list vk g.address_seed 0 g.address_types,
      gswb_eq_derived vk g hb,
      derived_list_length vk g.address_seed g.address_types 0, ?_⟩
    intro j hj
    rw [derived_list_getElem_opt vk g.address_seed 0 g.address_types j hj]
    simp [signer_bytes]
  · have hb2 : (1000 : Nat) + 0 + 2 ≤ 2 ^ 64 := by norm_num
    rw [gswb_eq_derived vk
      ⟨1000, [AddressType.account, AddressType.contract]⟩ hb2]
    simp only [derived_list, signer_for, Option.map_some, List.map_cons,
      List.map_nil, signer_bytes]
    norm_num [to_be_bytes]

theorem fingerprint_bytes_witness :
    (((⟨1000, [AddressType.account, AddressType.contract]⟩ :
        AddressGenerator).address_types.length ≤ MAX_U64) ∧
      ((⟨1000, [AddressType.account, AddressType.contract]⟩ :
        AddressGenerator).address_seed ≤ MAX_U64 - 2)) ∧
    ((∃ l, generate_signers_with_bytes id_vk
        ⟨1000, [AddressType.account, AddressType.contract]⟩ = some l ∧
      l.length = 2 ∧
      ∀ j, j < 2 →
        (l[j]?).map Prod.snd =
          some (List.replicate 24 0 ++ to_be_bytes (1000 + j))) ∧
    (generate_signers_with_bytes id_vk
        ⟨1000, [AddressType.account, AddressType.contract]⟩).map
        (fun l => l.map Prod.snd) =
      some [List.replicate 24 0 ++ [0, 0, 0, 0, 0, 0, 3, 232],
        List.replicate 24 0 ++ [0, 0, 0, 0, 0, 0, 3, 233]]) :=
  ⟨⟨by decide, by decide⟩,
   fingerprint_bytes id_vk
     ⟨1000, [AddressType.account, AddressType.contract]⟩
     (by decide) (by decide)⟩

/-- C5: for any valid schema with at least two slots, the fingerprints in
the derived list are pairwise distinct. -/
theorem fingerprints_pairwise_distinct (vk : List Nat → List Nat)
    (g : AddressGenerator)
    (_hN2 : 2 ≤ g.address_types.length)
    (hN : g.address_types.length ≤ MAX_U64)
    (h : g.address_seed ≤ MAX_U64 - g.address_types.length) :
    ∃ l, generate_signers_with_bytes vk g = some l ∧
      (l.map Prod.snd).Nodup := by
  have hb := valid_bound hN h
  refine ⟨derived_list vk g.address_seed 0 g.address_types,
    gswb_eq_derived vk g hb, ?_⟩
  rw [List.nodup_iff_injective_get]
  rintro ⟨a, ha⟩ ⟨b, hb2⟩ hab
  have ha' : a < g.address_types.length := by
    simpa [derived_list_length] using ha
  have hb' : b < g.address_types.length := by
    simpa [derived_list_length] using hb2
  have h1 := derived_list_get vk g.address_seed g.address_types 0 a ha'
  have h2 := derived_list_get vk g.address_seed g.address_types 0 b hb'
  simp only [List.get_eq_getElem, List.getElem_map] at hab h1 h2
  rw [h1, h2] at hab
  have hba : signer_bytes (g.address_seed + 0 + a) =
      signer_bytes (g.address_seed + 0 + b) := hab
  have hle1 : g.address_seed + 0 + a ≤ MAX_U64 := by
    simp only [MAX_U64]; omega
  have hle2 : g.address_seed + 0 + b ≤ MAX_U64 := by
    simp only [MAX_U64]; omega
  have := signer_bytes_inj hle1 hle2 hba
  exact Fin.ext (show a = b by omega)

theorem fingerprints_pairwise_distinct_witness :
    ((2 ≤ 2) ∧
      (((⟨3, [AddressType.contract, AddressType.account]⟩ :
        AddressGenerator).address_types.length ≤ MAX_U64) ∧
      ((⟨3, [AddressType.contract, AddressType.account]⟩ :
        AddressGenerator).address_seed ≤ MAX_U64 - 2))) ∧
    ∃ l, generate_signers_with_bytes id_vk
        ⟨3, [AddressType.contract, AddressType.account]⟩ = some l ∧
      (l.map Prod.snd).Nodup :=
  ⟨⟨by decide, by decide, by decide⟩,
   fingerprints_pairwise_distinct id_vk
     ⟨3, [AddressType.contract, AddressType.account]⟩
     (by decide) (by decide) (by decide)⟩

/-- C7: for every valid schema and index, a key-backed `Account` slot
yields an identity with key material present and an account-style handle
derived from the public key (`vk`) of the keypair seeded by the
fingerprint, while a `Contract` slot yields an identity with key material
absent and a contract-style handle derived directly from the 32-byte
fingerprint. -/
theorem kind_correctness (vk : List Nat → List Nat) (g : AddressGenerator)
    (hN : g.address_types.length ≤ MAX_U64)
    (h : g.address_seed ≤ MAX_U64 - g.address_types.length) :
    ∃ l, generate_signers_with_bytes vk g = some l ∧
      ∀ j (hj : j < g.address_types.length),
        (g.address_types.get ⟨j, hj⟩ = AddressType.account →
          (l[j]?).map Prod.fst =
            some ⟨ScAddress.account (vk (signer_bytes (g.address_seed + j))),
              some (signer_bytes (g.address_seed + j))⟩) ∧
        (g.address_types.get ⟨j, hj⟩ = AddressType.contract →
          (l[j]?).map Prod.fst =
            some ⟨ScAddress.contract (signer_bytes (g.address_seed + j)),
              none⟩) := by
  have hb := valid_bound hN h
  refine ⟨derived_list vk g.address_seed 0 g.address_types,
    gswb_eq_derived vk g hb, ?_⟩
  intro j hj
  have hopt := derived_list_getElem_opt vk g.address_seed 0 g.address_types j hj
  constructor <;> intro hkind <;> rw [hopt, hkind] <;> simp [signer_for]

theorem kind_correctness_witness :
    (((⟨21, [AddressType.contract, AddressType.account]⟩ :
        AddressGenerator).address_types.length ≤ MAX_U64) ∧
      ((⟨21, [AddressType.contract, AddressType.account]⟩ :
        AddressGenerator).address_seed ≤ MAX_U64 - 2)) ∧
    ∃ l, generate_signers_with_bytes id_vk
        ⟨21, [AddressType.contract, AddressType.account]⟩ = some l ∧
      ∀ j (hj : j < 2),
        (([AddressType.contract, AddressType.account].get ⟨j, hj⟩ =
            AddressType.account →
          (l[j]?).map Prod.fst =
            some ⟨ScAddress.account (id_vk (signer_bytes (21 + j))),
              some (signer_bytes (21 + j))⟩) ∧
        ([AddressType.contract, AddressType.account].get ⟨j, hj⟩ =
            AddressType.contract →
          (l[j]?).map Prod.fst =
            some ⟨ScAddress.contract (signer_bytes (21 + j)), none⟩)) :=
  ⟨⟨by decide, by decide⟩,
   kind_correctness id_vk ⟨21, [AddressType.contract, AddressType.account]⟩
     (by decide) (by decide)⟩

/-- C8: after `setup_account_storage` on a valid schema (with an injective
public-key derivation), every key-backed identity has exactly one committed
account record under its account key and exactly one committed trustline
record under its trustline key, the account record is committed before
(indeed immediately before) its trustline record, every committed record
belongs to a key-backed slot (so no contract-kind identity has any), and
the total number of commits is twice the number of key-backed slots. -/
theorem setup_fixture_completeness (vk : List Nat → List Nat)
    (hvk : Function.Injective vk) (g : AddressGenerator)
    (hN : g.address_types.length ≤ MAX_U64)
    (h : g.address_seed ≤ MAX_U64 - g.address_types.length) :
    ∃ puts, setup_account_storage vk g = some puts ∧
      puts.length = 2 * g.address_types.countP is_account_kind ∧
      (∀ p ∈ puts, ∃ j, ∃ hj : j < g.address_types.length,
        g.address_types.get ⟨j, hj⟩ = AddressType.account ∧
        account_id_of p.1 = vk (signer_bytes (g.address_seed + j))) ∧
      ∀ j (hj : j < g.address_types.length),
        g.address_types.get ⟨j, hj⟩ = AddressType.account →
          (puts.map Prod.fst).count
            (account_put vk (g.address_seed + j)).1 = 1 ∧
          (puts.map Prod.fst).count
            (trustline_put vk (g.address_seed + j)).1 = 1 ∧
          ∃ k, puts[k]? = some (account_put vk (g.address_seed + j)) ∧
            puts[k + 1]? = some (trustline_put vk (g.address_seed + j)) := by
  have hb := valid_bound hN h
  refine ⟨puts_list vk g.address_seed 0 g.address_types,
    setup_eq_puts vk g hb,
    puts_list_length vk g.address_seed g.address_types 0, ?_, ?_⟩
  · intro p hp
    obtain ⟨j, hj, hk, hor⟩ :=
      puts_list_mem vk g.address_seed g.address_types 0 p hp
    refine ⟨j, hj, hk, ?_⟩
    rcases hor with rfl | rfl <;>
      simp [account_put, trustline_put, create_default_account,
        create_default_trustline, account_id_of]
  · intro j hj hk
    have hnodup := puts_list_keys_nodup vk hvk g.address_seed
      g.address_types 0 hb
    obtain ⟨k, h1, h2⟩ := puts_list_account_adjacent vk g.address_seed
      g.address_types 0 j hj hk
    rw [show g.address_seed + 0 + j = g.address_seed + j by omega] at h1 h2
    obtain ⟨hlt1, hv1⟩ := List.getElem?_eq_some.mp h1
    obtain ⟨hlt2, hv2⟩ := List.getElem?_eq_some.mp h2
    have hm1 : account_put vk (g.address_seed + j) ∈
        puts_list vk g.address_seed 0 g.address_types :=
      hv1 ▸ List.getElem_mem hlt1
    have hm2 : trustline_put vk (g.address_seed + j) ∈
        puts_list vk g.address_seed 0 g.address_types :=
      hv2 ▸ List.getElem_mem hlt2
    exact ⟨List.count_eq_one_of_mem hnodup (List.mem_map_of_mem Prod.fst hm1),
      List.count_eq_one_of_mem hnodup (List.mem_map_of_mem Prod.fst hm2),
      k, h1, h2⟩

theorem setup_fixture_completeness_witness :
    (Function.Injective id_vk ∧
      ((⟨11, [AddressType.account, AddressType.contract]⟩ :
        AddressGenerator).address_types.length ≤ MAX_U64) ∧
      ((⟨11, [AddressType.account, AddressType.contract]⟩ :
        AddressGenerator).address_seed ≤ MAX_U64 - 2)) ∧
    ∃ puts, setup_account_storage id_vk
        ⟨11, [AddressType.account, AddressType.contract]⟩ = some puts ∧
      puts.length =
        2 * [AddressType.account, AddressType.contract].countP
          is_account_kind ∧
      (∀ p ∈ puts, ∃ j, ∃ hj : j < 2,
        [AddressType.account, AddressType.contract].get ⟨j, hj⟩ =
          AddressType.account ∧
        account_id_of p.1 = id_vk (signer_bytes (11 + j))) ∧
      ∀ j (hj : j < 2),
        [AddressType.account, AddressType.contract].get ⟨j, hj⟩ =
            AddressType.account →
          (puts.map Prod.fst).count (account_put id_vk (11 + j)).1 = 1 ∧
          (puts.map Prod.fst).count (trustline_put id_vk (11 + j)).1 = 1 ∧
          ∃ k, puts[k]? = some (account_put id_vk (11 + j)) ∧
            puts[k + 1]? = some (trustline_put id_vk (11 + j)) :=
  ⟨⟨fun a b hab => hab, by decide, by decide⟩,
   setup_fixture_completeness id_vk (fun a b hab => hab)
     ⟨11, [AddressType.account, AddressType.contract]⟩
     (by decide) (by decide)⟩

/-- C9: every account record committed by `setup_account_storage` has
sequence number zero, sub-entry count zero, thresholds with low threshold 1
and all higher thresholds 0, and exactly one signer entry whose key is the
identity's own public key (its account id) and whose weight 100 strictly
exceeds the low threshold. -/
theorem account_record_defaults (vk : List Nat → List Nat)
    (g : AddressGenerator)
    (hN : g.address_types.length ≤ MAX_U64)
    (h : g.address_seed ≤ MAX_U64 - g.address_types.length) :
    ∃ puts, setup_account_storage vk g = some puts ∧
      ∀ p ∈ puts, ∀ e, p.2.data = LedgerEntryData.account e →
        e.seq_num = 0 ∧ e.num_sub_entries = 0 ∧
        e.thresholds = [1, 0, 0, 0] ∧
        ∃ s, e.signers = [s] ∧ s.key = e.account_id ∧ s.weight = 100 ∧
          ∀ t, e.thresholds.head? = some t → t < s.weight := by
  have hb := valid_bound hN h
  refine ⟨puts_list vk g.address_seed 0 g.address_types,
    setup_eq_puts vk g hb, ?_⟩
  intro p hp e he
  obtain ⟨j, hj, hk, hor⟩ :=
    puts_list_mem vk g.address_seed g.address_types 0 p hp
  rcases hor with rfl | rfl
  · simp only [account_put, create_default_account, List.map_cons,
      List.map_nil] at he
    injection he with he'
    subst he'
    refine ⟨rfl, rfl, rfl,
      ⟨vk (signer_bytes (g.address_seed + 0 + j)), 100⟩, rfl, rfl, rfl, ?_⟩
    intro t ht
    simp only [List.head?_cons, Option.some.injEq] at ht
    show t < 100
    omega
  · simp only [trustline_put, create_default_trustline] at he
    exact absurd he (by simp)

theorem account_record_defaults_witness :
    (((⟨13, [AddressType.account]⟩ :
        AddressGenerator).address_types.length ≤ MAX_U64) ∧
      ((⟨13, [AddressType.account]⟩ :
        AddressGenerator).address_seed ≤ MAX_U64 - 1)) ∧
    ∃ puts, setup_account_storage id_vk ⟨13, [AddressType.account]⟩ =
        some puts ∧
      ∀ p ∈ puts, ∀ e, p.2.data = LedgerEntryData.account e →
        e.seq_num = 0 ∧ e.num_sub_entries = 0 ∧
        e.thresholds = [1, 0, 0, 0] ∧
        ∃ s, e.signers = [s] ∧ s.key = e.account_id ∧ s.weight = 100 ∧
          ∀ t, e.thresholds.head? = some t → t < s.weight :=
  ⟨⟨by decide, by decide⟩,
   account_record_defaults id_vk ⟨13, [AddressType.account]⟩
     (by decide) (by decide)⟩

/-- C10: every trustline record committed by `setup_account_storage` has
balance zero, limit `i64::MAX`, flags marking the line authorized and
clawback-enabled, and the same fixed asset code `"aaa\x00"` and fixed
issuer for every schema (independent of seed and kinds). -/
theorem trustline_record_defaults (vk : List Nat → List Nat)
    (g : AddressGenerator)
    (hN : g.address_types.length ≤ MAX_U64)
    (h : g.address_seed ≤ MAX_U64 - g.address_types.length) :
    ∃ puts, setup_account_storage vk g = some puts ∧
      ∀ p ∈ puts, ∀ t, p.2.data = LedgerEntryData.trustline t →
        t.balance = 0 ∧ t.limit = I64_MAX ∧
        t.flags = AUTHORIZED_FLAG ||| TRUSTLINE_CLAWBACK_ENABLED_FLAG ∧
        t.asset = TrustLineAsset.creditAlphanum4 ⟨[97, 97, 97, 0],
          issuer_bytes⟩ := by
  have hb := valid_bound hN h
  refine ⟨puts_list vk g.address_seed 0 g.address_types,
    setup_eq_puts vk g hb, ?_⟩
  intro p hp t ht
  obtain ⟨j, hj, hk, hor⟩ :=
    puts_list_mem vk g.address_seed g.address_types 0 p hp
  rcases hor with rfl | rfl
  · simp only [account_put, create_default_account] at ht
    exact absurd ht (by simp)
  · simp only [trustline_put, create_default_trustline] at ht
    injection ht with ht'
    subst ht'
    exact ⟨rfl, rfl, rfl, rfl⟩

theorem trustline_record_defaults_witness :
    (((⟨17, [AddressType.account, AddressType.account]⟩ :
        AddressGenerator).address_types.length ≤ MAX_U64) ∧
      ((⟨17, [AddressType.account, AddressType.account]⟩ :
        AddressGenerator).address_seed ≤ MAX_U64 - 2)) ∧
    ∃ puts, setup_account_storage id_vk
        ⟨17, [AddressType.account, AddressType.account]⟩ = some puts ∧
      ∀ p ∈ puts, ∀ t, p.2.data = LedgerEntryData.trustline t →
        t.balance = 0 ∧ t.limit = I64_MAX ∧
        t.flags = AUTHORIZED_FLAG ||| TRUSTLINE_CLAWBACK_ENABLED_FLAG ∧
        t.asset = TrustLineAsset.creditAlphanum4 ⟨[97, 97, 97, 0],
          issuer_bytes⟩ :=
  ⟨⟨by decide, by decide⟩,
   trustline_record_defaults id_vk
     ⟨17, [AddressType.account, AddressType.account]⟩
     (by decide) (by decide)⟩

end SorobanTokenFuzzer
